import Mathlib

/-!
Verification of the page-layout and scaling engine of the image-to-PDF
converter repository.  The repository holds two near-duplicate converter
variants:

* `img2pdf_v2.py`, class `ImageToPDFConverter` — the no-margin variant
  supporting `.svg`, `.png`, `.jpg`, `.jpeg`, `.webp`;
* `image_2_pdf.py`, class `SVGToPDFConverter` — the 20-point-margin,
  SVG-only variant with a 10-point cell padding and a high-quality
  upscale expression.

The embedding below follows the Python source line by line.  Real-number
arithmetic of the source (Python floats) is modelled by exact rationals;
`int(x)` truncation of the non-negative progress percentage is modelled
by natural-number division.  The third-party rendering libraries
(reportlab's canvas, svglib's `svg2rlg`, `ImageReader`) are environments:
their observable answers for one file are captured by `LoadOut`, and the
canvas page lifecycle (implicit first page, `showPage` starting the next
page) is the document-writer state machine, counted through the emitted
`Event.newPage` markers.
-/

/-- Outcome of asking the loader library about one source file:
`ok w h` — a drawing / image with intrinsic size `(w, h)` was obtained
(`svg2rlg` returned a truthy drawing, or `ImageReader(...).getSize()`
answered); `noDrawing` — `svg2rlg` returned `None` without raising;
`raise` — the load or the subsequent draw call raised an exception. -/
inductive LoadOut where
  | ok (w h : ℚ)
  | noDrawing
  | raise
deriving DecidableEq

/-- One input file: its base name (used in status messages), its
lower-cased extension (the source applies `.suffix.lower()`), and what
the loader library does with it. -/
structure ImageFile where
  name : String
  ext  : String
  load : LoadOut
deriving DecidableEq

/-- Result of the per-image body of the conversion loop:
`skip` — unsupported extension, `continue` before the progress counter;
`err` — an exception was caught by the per-image `except`, `continue`
before the progress counter; `drawn` — the image was rendered with the
given scale at the given centered position (`raster` distinguishes the
`drawImage` branch from the `renderPDF.draw` branch); `silent` — the
SVG-only variant's `svg2rlg` returned `None`: the `if drawing:` block is
skipped, nothing is emitted, but the progress counter still advances. -/
inductive StepOut where
  | skip (name : String)
  | err (name : String)
  | drawn (name : String) (scale cx cy : ℚ) (raster : Bool)
  | silent
deriving DecidableEq

/-- One observable event on the three outbound channels:
`progress` on `progress_updated`, everything else on `status_updated`;
`newPage` marks a `c.showPage()` call on the document writer. -/
inductive Event where
  | progress (n : ℕ)
  | newPage
  | statusPage (k : ℕ)
  | statusWarn
  | statusSkip (name : String)
  | statusErr (name : String)
  | statusOk (name : String) (scale : ℚ) (raster : Bool)
deriving DecidableEq

/-- Terminal outcome of `run()`: the `finished_signal` payload plus the
full ordered event trace of the conversion. -/
structure RunResult where
  success : Bool
  message : String
  events  : List Event
deriving DecidableEq

/-- `row = i // cols` with the hardcoded `cols = 3`. -/
def rowOf (i : ℕ) : ℕ := i / 3

/-- `col = i % cols` with the hardcoded `cols = 3`. -/
def colOf (i : ℕ) : ℕ := i % 3

/-- No-margin variant fit scale:
`scale = min(cell_width / img_width, cell_height / img_height)`. -/
def scaleFit (cw ch w h : ℚ) : ℚ := min (cw / w) (ch / h)

/-- Margin variant fit scale with its 10-point padding:
`scale = min((cell_width - 10) / svg_width, (cell_height - 10) / svg_height)`. -/
def scaleFitM (cw ch w h : ℚ) : ℚ := min ((cw - 10) / w) ((ch - 10) / h)

/-- The high-quality branch of the margin variant:
`max_scale = min(2.0, scale); scale = max(scale, max_scale)`. -/
def hqScale (s : ℚ) : ℚ := max s (min 2 s)

/-- Cell x-origin of the no-margin variant: `col * cell_width`. -/
def cellX (cw : ℚ) (col : ℕ) : ℚ := col * cw

/-- Cell y-origin of the no-margin variant:
`page_height - (row + 1) * cell_height`. -/
def cellY (ph ch : ℚ) (row : ℕ) : ℚ := ph - (row + 1) * ch

/-- Cell x-origin of the margin variant: `margin + col * cell_width`
with `margin = 20`. -/
def cellXM (cw : ℚ) (col : ℕ) : ℚ := 20 + col * cw

/-- Cell y-origin of the margin variant:
`page_height - margin - (row + 1) * cell_height` with `margin = 20`. -/
def cellYM (ph ch : ℚ) (row : ℕ) : ℚ := ph - 20 - (row + 1) * ch

/-- Centering inside a cell, shared by both axes of both variants:
`cellStart + (cellLen - scaledLen) / 2`. -/
def centerInCell (cellStart cellLen scaledLen : ℚ) : ℚ :=
  cellStart + (cellLen - scaledLen) / 2

/-- Extensions of the raster branch of `ImageToPDFConverter`. -/
def rasterExts : List String := [".png", ".jpg", ".jpeg", ".webp"]

/-- Per-image body of `ImageToPDFConverter.convert_images_to_pdf` for the
image at in-batch index `i`.  `cell_width = page_width / 3`,
`cell_height = page_height / 3` (no margin).  A division whose divisor is
zero raises `ZeroDivisionError` in Python and is caught by the per-image
`except`, hence the explicit zero tests guarding `scaleFit`; when
`svg2rlg` returns `None` the dimensions keep their `0, 0` initialisation
and the same division raises. -/
def stepV2 (pw ph : ℚ) (i : ℕ) (f : ImageFile) : StepOut :=
  let cw := pw / 3
  let ch := ph / 3
  if f.ext = ".svg" then
    match f.load with
    | .raise => .err f.name
    | .noDrawing => .err f.name
    | .ok w h =>
      let p := if w = 0 ∨ h = 0 then (cw, ch) else (w, h)
      if p.1 = 0 ∨ p.2 = 0 then .err f.name
      else
        let scale := scaleFit cw ch p.1 p.2
        .drawn f.name scale
          (centerInCell (cellX cw (colOf i)) cw (p.1 * scale))
          (centerInCell (cellY ph ch (rowOf i)) ch (p.2 * scale))
          false
  else if f.ext ∈ rasterExts then
    match f.load with
    | .raise => .err f.name
    | .noDrawing => .err f.name
    | .ok w h =>
      if w = 0 ∨ h = 0 then .err f.name
      else
        let scale := scaleFit cw ch w h
        .drawn f.name scale
          (centerInCell (cellX cw (colOf i)) cw (w * scale))
          (centerInCell (cellY ph ch (rowOf i)) ch (h * scale))
          true
  else .skip f.name

/-- Per-image body of `SVGToPDFConverter.convert_svgs_to_pdf` for the
image at in-batch index `i`.  `margin = 20`,
`cell_width = (page_width - 2 * margin) / 3`, likewise for the height;
every file goes through `svg2rlg` (there is no extension dispatch).
The width/height fallback substitutes `cell - 10`; the high-quality
branch applies `hqScale`. -/
def stepSvg (pw ph : ℚ) (hq : Bool) (i : ℕ) (f : ImageFile) : StepOut :=
  let cw := (pw - 2 * 20) / 3
  let ch := (ph - 2 * 20) / 3
  match f.load with
  | .raise => .err f.name
  | .noDrawing => .silent
  | .ok w h =>
    let p := if w = 0 ∨ h = 0 then (cw - 10, ch - 10) else (w, h)
    if p.1 = 0 ∨ p.2 = 0 then .err f.name
    else
      let scale0 := scaleFitM cw ch p.1 p.2
      let scale := if hq then hqScale scale0 else scale0
      .drawn f.name scale
        (centerInCell (cellXM cw (colOf i)) cw (p.1 * scale))
        (centerInCell (cellYM ph ch (rowOf i)) ch (p.2 * scale))
        false

/-- Status events emitted by one per-image step. -/
def eventsOf : StepOut → List Event
  | .skip n => [.statusSkip n]
  | .err n => [.statusErr n]
  | .drawn n s _ _ r => [.statusOk n s r]
  | .silent => []

/-- Whether the step reaches `files_processed += 1` (the two `continue`
paths jump over it). -/
def increments : StepOut → Bool
  | .skip _ => false
  | .err _ => false
  | .drawn _ _ _ _ _ => true
  | .silent => true

/-- Number of iterations of `range(0, total, images_per_page)`:
the number of page batches. -/
def numBatches (total ipp : ℕ) : ℕ := (total + ipp - 1) / ipp

/-- Fold step for one image: run the per-image body, emit its status
events, and if it completes, advance `files_processed` and emit
`progress = int(files_processed / total_files * 100)`. -/
def imgFold (step : ℕ → ImageFile → StepOut) (total : ℕ)
    (acc : ℕ × List Event) (p : ℕ × ImageFile) : ℕ × List Event :=
  let o := step p.1 p.2
  if increments o then
    (acc.1 + 1, acc.2 ++ eventsOf o ++ [Event.progress ((acc.1 + 1) * 100 / total)])
  else
    (acc.1, acc.2 ++ eventsOf o)

/-- One batch of the page loop at `page_num = k * images_per_page`:
emit the page status, call `showPage` when `page_num > 0`, then process
the slice `files[page_num : page_num + images_per_page]` with its
`enumerate` indices. -/
def batchFold (step : ℕ → ImageFile → StepOut) (total ipp : ℕ)
    (files : List ImageFile) (acc : ℕ × List Event) (k : ℕ) : ℕ × List Event :=
  let bfiles := (files.drop (k * ipp)).take ipp
  let acc' := (acc.1, acc.2 ++ [Event.statusPage (k + 1)] ++
    (if 0 < k * ipp then [Event.newPage] else []))
  bfiles.enum.foldl (imgFold step total) acc'

/-- The whole page loop `for page_num in range(0, total_files,
images_per_page)` threading `files_processed` through. -/
def convertLoop (step : ℕ → ImageFile → StepOut) (ipp : ℕ)
    (files : List ImageFile) : ℕ × List Event :=
  (List.range (numBatches files.length ipp)).foldl
    (batchFold step files.length ipp files) (0, [])

/-- Event trace of `ImageToPDFConverter.convert_images_to_pdf` on a
non-empty file list: the `images_per_page != 9` warning, then the page
loop.  The `high_quality` flag only selects canvas compression settings,
which leave no trace in the layout model. -/
def convert_images_to_pdf (pw ph : ℚ) (ipp : ℕ) (files : List ImageFile) :
    List Event :=
  (if ipp ≠ 9 then [Event.statusWarn] else []) ++
    (convertLoop (stepV2 pw ph) ipp files).2

/-- Event trace of `SVGToPDFConverter.convert_svgs_to_pdf` on a
non-empty file list (this variant emits no warning). -/
def convert_svgs_to_pdf (pw ph : ℚ) (ipp : ℕ) (hq : Bool)
    (files : List ImageFile) : List Event :=
  (convertLoop (stepSvg pw ph hq) ipp files).2

/-- `ImageToPDFConverter.run`: an empty file list makes
`convert_images_to_pdf` raise `ValueError` before the canvas is built,
which `run` reports through `finished_signal.emit(False, ...)`; otherwise
the conversion runs to completion and reports success. -/
def runV2 (pw ph : ℚ) (ipp : ℕ) (files : List ImageFile) : RunResult :=
  if files.isEmpty then
    ⟨false, "Fehler bei der Konvertierung: Keine Bilddateien ausgewählt", []⟩
  else
    ⟨true, "Konvertierung erfolgreich abgeschlossen!",
      convert_images_to_pdf pw ph ipp files⟩

/-- `SVGToPDFConverter.run`, analogously. -/
def runSvg (pw ph : ℚ) (ipp : ℕ) (hq : Bool) (files : List ImageFile) :
    RunResult :=
  if files.isEmpty then
    ⟨false, "Fehler bei der Konvertierung: Keine SVG-Dateien ausgewählt", []⟩
  else
    ⟨true, "Konvertierung erfolgreich abgeschlossen!",
      convert_svgs_to_pdf pw ph ipp hq files⟩

/-- The subsequence of values emitted on the progress channel. -/
def progressValues (evs : List Event) : List ℕ :=
  evs.filterMap (fun e => match e with | .progress n => some n | _ => none)

/-- Number of `showPage` calls in a trace. -/
def countNewPage (evs : List Event) : ℕ := evs.count Event.newPage

/-- Physical pages of the saved document: the canvas starts with an
implicit first page and each `showPage` starts the next one; a run that
fails before the canvas is constructed creates no page. -/
def pagesCreated (r : RunResult) : ℕ :=
  if r.success then countNewPage r.events + 1 else 0

/-- Axis-aligned rectangle containment: `(x, y, w, h)` lies inside
`(X, Y, W, H)`. -/
def rectInRect (x y w h X Y W H : ℚ) : Prop :=
  X ≤ x ∧ Y ≤ y ∧ x + w ≤ X + W ∧ y + h ≤ Y + H

instance (x y w h X Y W H : ℚ) : Decidable (rectInRect x y w h X Y W H) := by
  unfold rectInRect; infer_instance

/-- Placement rectangle `(originX, originY, scaledWidth, scaledHeight)`
computed by the no-margin variant for an image of intrinsic size
`(w, h)` at in-batch index `i` (the composition of `scaleFit`,
`cellX`/`cellY` and `centerInCell` exactly as in `stepV2`). -/
def placedV2 (pw ph : ℚ) (i : ℕ) (w h : ℚ) : ℚ × ℚ × ℚ × ℚ :=
  let cw := pw / 3
  let ch := ph / 3
  let s := scaleFit cw ch w h
  (centerInCell (cellX cw (colOf i)) cw (w * s),
   centerInCell (cellY ph ch (rowOf i)) ch (h * s),
   w * s, h * s)

/-! ### Geometry helper lemmas -/

lemma scaleFit_le_w (cw ch w h : ℚ) (hw : 0 < w) :
    w * scaleFit cw ch w h ≤ cw := by
  have h1 : scaleFit cw ch w h ≤ cw / w := min_le_left _ _
  have h2 : w * (cw / w) = cw := by field_simp
  nlinarith [mul_le_mul_of_nonneg_left h1 hw.le]

lemma scaleFit_le_h (cw ch w h : ℚ) (hh : 0 < h) :
    h * scaleFit cw ch w h ≤ ch := by
  have h1 : scaleFit cw ch w h ≤ ch / h := min_le_right _ _
  have h2 : h * (ch / h) = ch := by field_simp
  nlinarith [mul_le_mul_of_nonneg_left h1 hh.le]

lemma scaleFitM_le_w (cw ch w h : ℚ) (hw : 0 < w) :
    w * scaleFitM cw ch w h ≤ cw - 10 := by
  have h1 : scaleFitM cw ch w h ≤ (cw - 10) / w := min_le_left _ _
  have h2 : w * ((cw - 10) / w) = cw - 10 := by field_simp
  nlinarith [mul_le_mul_of_nonneg_left h1 hw.le]

lemma scaleFitM_le_h (cw ch w h : ℚ) (hh : 0 < h) :
    h * scaleFitM cw ch w h ≤ ch - 10 := by
  have h1 : scaleFitM cw ch w h ≤ (ch - 10) / h := min_le_right _ _
  have h2 : h * ((ch - 10) / h) = ch - 10 := by field_simp
  nlinarith [mul_le_mul_of_nonneg_left h1 hh.le]

lemma scaleFit_pos (cw ch w h : ℚ) (hcw : 0 < cw) (hch : 0 < ch)
    (hw : 0 < w) (hh : 0 < h) : 0 < scaleFit cw ch w h :=
  lt_min (div_pos hcw hw) (div_pos hch hh)

/-! ### Claim theorems: geometry -/

/-- C1: with positive intrinsic size `(w, h)` and no upscale, the
computed scale is the minimum of the two axis-fit ratios — `min(cw/w,
ch/h)` in the no-margin variant, `min((cw-10)/w, (ch-10)/h)` in the
margin variant — and the scaled width/height `w * scale`, `h * scale`
never exceed the cell bounds `cw`, `ch`. -/
theorem scale_is_min_and_fits (cw ch w h : ℚ) (hw : 0 < w) (hh : 0 < h) :
    scaleFit cw ch w h = min (cw / w) (ch / h) ∧
    scaleFitM cw ch w h = min ((cw - 10) / w) ((ch - 10) / h) ∧
    w * scaleFit cw ch w h ≤ cw ∧ h * scaleFit cw ch w h ≤ ch ∧
    w * scaleFitM cw ch w h ≤ cw ∧ h * scaleFitM cw ch w h ≤ ch := by
  refine ⟨rfl, rfl, scaleFit_le_w cw ch w h hw, scaleFit_le_h cw ch w h hh, ?_, ?_⟩
  · have := scaleFitM_le_w cw ch w h hw; linarith
  · have := scaleFitM_le_h cw ch w h hh; linarith

/-- Witness for C1 at `cw = 6, ch = 3, w = 2, h = 1`. -/
theorem scale_is_min_and_fits_w :
    scaleFit 6 3 2 1 = min ((6 : ℚ) / 2) (3 / 1) ∧
    scaleFitM 6 3 2 1 = min (((6 : ℚ) - 10) / 2) ((3 - 10) / 1) ∧
    (2 : ℚ) * scaleFit 6 3 2 1 ≤ 6 ∧ (1 : ℚ) * scaleFit 6 3 2 1 ≤ 3 ∧
    (2 : ℚ) * scaleFitM 6 3 2 1 ≤ 6 ∧ (1 : ℚ) * scaleFitM 6 3 2 1 ≤ 3 :=
  scale_is_min_and_fits 6 3 2 1 (by decide) (by decide)

/-- C5: the placement is centered in its cell independently per axis:
`origin + scaledLen / 2 = cellOrigin + cellLen / 2` exactly over the
rationals, for the shared centering formula applied by both variants on
both axes. -/
theorem centering_exact :
    ∀ start len scaled : ℚ,
      centerInCell start len scaled + scaled / 2 = start + len / 2 := by
  intro s l sc
  unfold centerInCell
  ring

/-- C6: within a page batch the image at in-batch index `i` gets grid
slot `row = i div 3`, `col = i mod 3`, and the slot assignment is
injective: two indices with the same `(row, col)` are equal. -/
theorem slot_assignment :
    (∀ i : ℕ, rowOf i = i / 3 ∧ colOf i = i % 3) ∧
    ∀ i j : ℕ, rowOf i = rowOf j → colOf i = colOf j → i = j := by
  refine ⟨fun i => ⟨rfl, rfl⟩, fun i j hr hc => ?_⟩
  unfold rowOf at hr
  unfold colOf at hc
  omega

/-- Witness for C6 at `i = 5` and the injectivity instance `i = j = 7`. -/
theorem slot_assignment_w : rowOf 5 = 5 / 3 ∧ 7 = 7 :=
  ⟨(slot_assignment.1 5).1, slot_assignment.2 7 7 rfl rfl⟩

/-- C4 counterexample: in the margin variant with `highQuality` set, an
image whose fit-scale is `3 > 1` is drawn with effective scale `3`,
which exceeds the claimed `2.0` cap: `max(scale, min(2.0, scale))` is a
no-op.  Page size `79` gives `cell = 13`, padding leaves `3`, so an
intrinsic `1 × 1` SVG gets fit-scale `3`. -/
theorem upscale_cap_cex :
    1 < scaleFitM 13 13 1 1 ∧
    hqScale (scaleFitM 13 13 1 1) = scaleFitM 13 13 1 1 ∧
    ¬ hqScale (scaleFitM 13 13 1 1) ≤ 2 ∧
    stepSvg 79 79 true 0 ⟨"a", ".svg", LoadOut.ok 1 1⟩ =
      StepOut.drawn "a" 3 25 51 false := by
  have h1 : scaleFitM 13 13 1 1 = 3 := by unfold scaleFitM; norm_num
  have h2 : hqScale 3 = 3 := by
    unfold hqScale
    rw [min_eq_left (by norm_num : (2:ℚ) ≤ 3), max_eq_left (by norm_num : (2:ℚ) ≤ 3)]
  refine ⟨by rw [h1]; norm_num, by rw [h1, h2], by rw [h1, h2]; norm_num, ?_⟩
  show stepSvg 79 79 true 0 ⟨"a", ".svg", LoadOut.ok 1 1⟩ =
    StepOut.drawn "a" 3 25 51 false
  simp only [stepSvg]
  norm_num [colOf, rowOf, cellXM, cellYM, centerInCell, h1, h2]

/-- C4 amended: the high-quality "clamp" `max(scale, min(2.0, scale))`
is the identity, so the effective scale always equals the computed
fit-scale — never below it, but also not capped at `2.0`; consequently
the `highQuality` flag does not change the per-image step at all. -/
theorem upscale_cap_amended :
    (∀ s : ℚ, hqScale s = s) ∧
    (∀ (pw ph : ℚ) (hq : Bool) (i : ℕ) (f : ImageFile),
      stepSvg pw ph hq i f = stepSvg pw ph true i f) := by
  have hs : ∀ s : ℚ, hqScale s = s := fun s => max_eq_left (min_le_right 2 s)
  refine ⟨hs, fun pw ph hq i f => ?_⟩
  cases f with
  | mk n e l =>
    cases l <;> cases hq <;> simp [stepSvg, hs]

/-- C10: overflow of the fixed 3-by-3 grid in the no-margin variant.
For an image of positive intrinsic size at in-batch index `i ≥ 9` the
assigned row is at least `3`, the cell y-origin
`page_height - (row + 1) * cell_height` is negative, and the placed
rectangle is contained in none of the nine grid cells; for `i ≤ 8` the
placed rectangle lies within the page area.  In the margin variant a
row `≥ 3` likewise puts the cell y-origin below the grid bottom (the
20-point margin line). -/
theorem grid_overflow (pw ph w h : ℚ) (i : ℕ)
    (hpw : 0 < pw) (hph : 0 < ph) (hw : 0 < w) (hh : 0 < h) :
    (9 ≤ i → 3 ≤ rowOf i) ∧
    (9 ≤ i → cellY ph (ph / 3) (rowOf i) < 0) ∧
    (9 ≤ i → ∀ r c : ℕ, r < 3 → c < 3 →
      ¬ rectInRect (placedV2 pw ph i w h).1 (placedV2 pw ph i w h).2.1
          (placedV2 pw ph i w h).2.2.1 (placedV2 pw ph i w h).2.2.2
          (cellX (pw / 3) c) (cellY ph (ph / 3) r) (pw / 3) (ph / 3)) ∧
    (i ≤ 8 → rectInRect (placedV2 pw ph i w h).1 (placedV2 pw ph i w h).2.1
          (placedV2 pw ph i w h).2.2.1 (placedV2 pw ph i w h).2.2.2
          0 0 pw ph) ∧
    (40 < ph → 3 ≤ rowOf i → cellYM ph ((ph - 2 * 20) / 3) (rowOf i) < 20) := by
  have hcw : 0 < pw / 3 := by positivity
  have hch : 0 < ph / 3 := by positivity
  have hs : 0 < scaleFit (pw / 3) (ph / 3) w h :=
    scaleFit_pos _ _ _ _ hcw hch hw hh
  have hsw : 0 < w * scaleFit (pw / 3) (ph / 3) w h := mul_pos hw hs
  have hsh : 0 < h * scaleFit (pw / 3) (ph / 3) w h := mul_pos hh hs
  have hswle : w * scaleFit (pw / 3) (ph / 3) w h ≤ pw / 3 :=
    scaleFit_le_w _ _ _ _ hw
  have hshle : h * scaleFit (pw / 3) (ph / 3) w h ≤ ph / 3 :=
    scaleFit_le_h _ _ _ _ hh
  have hrow9 : 9 ≤ i → 3 ≤ rowOf i := by unfold rowOf; omega
  refine ⟨hrow9, ?_, ?_, ?_, ?_⟩
  · intro h9
    have hr : (3 : ℚ) ≤ (rowOf i : ℚ) := by exact_mod_cast hrow9 h9
    have hmul : 4 * (ph / 3) ≤ ((rowOf i : ℚ) + 1) * (ph / 3) :=
      mul_le_mul_of_nonneg_right (by linarith) hch.le
    unfold cellY
    linarith
  · intro h9 r c hr3 _ hcont
    have hrq : (3 : ℚ) ≤ (rowOf i : ℚ) := by exact_mod_cast hrow9 h9
    have hrc : ((r : ℚ) + 1) ≤ 3 := by
      have : (r : ℚ) ≤ 2 := by exact_mod_cast Nat.lt_succ_iff.mp hr3
      linarith
    have hmul : 4 * (ph / 3) ≤ ((rowOf i : ℚ) + 1) * (ph / 3) :=
      mul_le_mul_of_nonneg_right (by linarith) hch.le
    have hmul2 : ((r : ℚ) + 1) * (ph / 3) ≤ 3 * (ph / 3) :=
      mul_le_mul_of_nonneg_right hrc hch.le
    -- the placed rectangle's bottom edge lies strictly below 0, while
    -- every grid cell's bottom edge lies at or above 0
    have h2 := hcont.2.1
    simp only [placedV2, centerInCell, cellY] at h2
    linarith
  · intro h8
    have hrow : rowOf i ≤ 2 := by unfold rowOf; omega
    have hcol : colOf i ≤ 2 := by unfold colOf; omega
    have hrq : (rowOf i : ℚ) ≤ 2 := by exact_mod_cast hrow
    have hcq : (colOf i : ℚ) ≤ 2 := by exact_mod_cast hcol
    have hrq0 : (0 : ℚ) ≤ (rowOf i : ℚ) := Nat.cast_nonneg _
    have hcq0 : (0 : ℚ) ≤ (colOf i : ℚ) := Nat.cast_nonneg _
    have hc1 : (0 : ℚ) ≤ (colOf i : ℚ) * (pw / 3) := mul_nonneg hcq0 hcw.le
    have hc2 : (colOf i : ℚ) * (pw / 3) ≤ 2 * (pw / 3) :=
      mul_le_mul_of_nonneg_right hcq hcw.le
    have hr1 : (0 : ℚ) ≤ (rowOf i : ℚ) * (ph / 3) := mul_nonneg hrq0 hch.le
    have hr2 : ((rowOf i : ℚ) + 1) * (ph / 3) ≤ 3 * (ph / 3) :=
      mul_le_mul_of_nonneg_right (by linarith) hch.le
    have hr3 : (rowOf i : ℚ) * (ph / 3) ≤ 2 * (ph / 3) :=
      mul_le_mul_of_nonneg_right hrq hch.le
    refine ⟨?_, ?_, ?_, ?_⟩ <;>
      simp only [placedV2, centerInCell, cellX, cellY] <;>
      linarith
  · intro hph40 hr3
    have hrq : (3 : ℚ) ≤ (rowOf i : ℚ) := by exact_mod_cast hr3
    have hv : 0 < (ph - 2 * 20) / 3 :=
      div_pos (by linarith) (by norm_num)
    have hmul : 4 * ((ph - 2 * 20) / 3) ≤ ((rowOf i : ℚ) + 1) * ((ph - 2 * 20) / 3) :=
      mul_le_mul_of_nonneg_right (by linarith) hv.le
    unfold cellYM
    linarith

/-- Witness for C10 at `pw = ph = 300`, a `1 × 1` image, index `i = 9`. -/
theorem grid_overflow_w : cellY 300 (300 / 3) (rowOf 9) < 0 :=
  (grid_overflow 300 300 1 1 9 (by decide) (by decide) (by decide)
    (by decide)).2.1 (by decide)

/-! ### Event-trace infrastructure -/

lemma foldl_evs_append {α : Type} (f : ℕ × List Event → α → ℕ × List Event)
    (hf : ∀ acc a, ∃ t, (f acc a).2 = acc.2 ++ t) :
    ∀ (l : List α) (acc : ℕ × List Event),
      ∃ t, (l.foldl f acc).2 = acc.2 ++ t := by
  intro l
  induction l with
  | nil => exact fun acc => ⟨[], by simp⟩
  | cons a l ih =>
    intro acc
    obtain ⟨t1, h1⟩ := hf acc a
    obtain ⟨t2, h2⟩ := ih (f acc a)
    exact ⟨t1 ++ t2, by simp [List.foldl_cons, h2, h1]⟩

lemma foldl_evs_mem {α : Type} (f : ℕ × List Event → α → ℕ × List Event)
    (hf : ∀ acc a, ∃ t, (f acc a).2 = acc.2 ++ t)
    (l : List α) (a : α) (ha : a ∈ l) (e : Event)
    (he : ∀ acc, e ∈ (f acc a).2) :
    ∀ acc, e ∈ (l.foldl f acc).2 := by
  induction l with
  | nil => cases ha
  | cons b l ih =>
    intro acc
    rw [List.foldl_cons]
    rcases List.mem_cons.mp ha with rfl | hmem
    · obtain ⟨t, ht⟩ := foldl_evs_append f hf l (f acc a)
      rw [ht]
      exact List.mem_append_left _ (he acc)
    · exact ih hmem (f acc b)

lemma imgFold_append (step : ℕ → ImageFile → StepOut) (total : ℕ) :
    ∀ (acc : ℕ × List Event) (p : ℕ × ImageFile),
      ∃ t, (imgFold step total acc p).2 = acc.2 ++ t := by
  intro acc p
  by_cases h : increments (step p.1 p.2) = true
  · exact ⟨eventsOf (step p.1 p.2) ++
      [Event.progress ((acc.1 + 1) * 100 / total)], by simp [imgFold, h]⟩
  · exact ⟨eventsOf (step p.1 p.2), by simp [imgFold, h]⟩

lemma batchFold_append (step : ℕ → ImageFile → StepOut) (total ipp : ℕ)
    (files : List ImageFile) :
    ∀ (acc : ℕ × List Event) (k : ℕ),
      ∃ t, (batchFold step total ipp files acc k).2 = acc.2 ++ t := by
  intro acc k
  obtain ⟨t, ht⟩ := foldl_evs_append _ (imgFold_append step total)
    ((files.drop (k * ipp)).take ipp).enum
    (acc.1, acc.2 ++ [Event.statusPage (k + 1)] ++
      (if 0 < k * ipp then [Event.newPage] else []))
  refine ⟨[Event.statusPage (k + 1)] ++
    (if 0 < k * ipp then [Event.newPage] else []) ++ t, ?_⟩
  show (((files.drop (k * ipp)).take ipp).enum.foldl (imgFold step total)
    (acc.1, acc.2 ++ [Event.statusPage (k + 1)] ++
      (if 0 < k * ipp then [Event.newPage] else []))).2 = _
  rw [ht]
  simp [List.append_assoc]

lemma imgFold_mem (step : ℕ → ImageFile → StepOut) (total : ℕ)
    (p : ℕ × ImageFile) (e : Event) (he : e ∈ eventsOf (step p.1 p.2)) :
    ∀ acc, e ∈ (imgFold step total acc p).2 := by
  intro acc
  by_cases h : increments (step p.1 p.2) = true <;> simp [imgFold, h, he]

lemma batchFold_mem (step : ℕ → ImageFile → StepOut) (total ipp : ℕ)
    (files : List ImageFile) (k i : ℕ) (f : ImageFile)
    (hif : (i, f) ∈ ((files.drop (k * ipp)).take ipp).enum)
    (e : Event) (he : e ∈ eventsOf (step i f)) :
    ∀ acc, e ∈ (batchFold step total ipp files acc k).2 := by
  intro acc
  unfold batchFold
  exact foldl_evs_mem _ (imgFold_append step total) _ (i, f) hif e
    (imgFold_mem step total (i, f) e he) _

/-- The page batches of `range(0, total, images_per_page)` partition the
file list. -/
lemma chunks_join {α : Type} (ipp : ℕ) (hipp : 0 < ipp) :
    ∀ (l : List α),
      (List.range (numBatches l.length ipp)).flatMap
        (fun k => (l.drop (k * ipp)).take ipp) = l := by
  suffices h : ∀ (n : ℕ) (l : List α), numBatches l.length ipp = n →
      (List.range n).flatMap (fun k => (l.drop (k * ipp)).take ipp) = l by
    intro l; exact h _ l rfl
  intro n
  induction n with
  | zero =>
    intro l hl
    have hlen : l.length = 0 := by
      unfold numBatches at hl
      have := (Nat.div_eq_zero_iff hipp).mp hl
      omega
    simp [List.eq_nil_of_length_eq_zero hlen]
  | succ n ih =>
    intro l hl
    rw [List.range_succ_eq_map, List.flatMap_cons, List.flatMap_map]
    have hfun : (fun k => (l.drop (Nat.succ k * ipp)).take ipp) =
        (fun k => ((l.drop ipp).drop (k * ipp)).take ipp) := by
      funext k
      rw [List.drop_drop]
      congr 1
      rw [Nat.succ_mul]
      ring_nf
    rw [hfun]
    rw [ih (l.drop ipp) ?_]
    · simp
    · unfold numBatches at hl ⊢
      rw [List.length_drop]
      rcases Nat.lt_or_ge l.length ipp with hlt | hge
      · have h1 : l.length - ipp = 0 := by omega
        have h2 : l.length ≠ 0 := by
          intro h0
          rw [h0] at hl
          have h5 := (@Nat.div_eq_zero_iff (0 + ipp - 1) ipp hipp).mpr (by omega)
          omega
        have h3 : l.length + ipp - 1 < 2 * ipp := by omega
        have h4 : (l.length + ipp - 1) / ipp < 2 :=
          (Nat.div_lt_iff_lt_mul hipp).mpr (by omega)
        rw [h1]
        have h5 : (0 + ipp - 1) / ipp = 0 :=
          (Nat.div_eq_zero_iff hipp).mpr (by omega)
        omega
      · have h1 : l.length - ipp + ipp - 1 = l.length - 1 := by omega
        have h2 : l.length + ipp - 1 = (l.length - 1) + ipp := by omega
        rw [h1]
        rw [h2, Nat.add_div_right _ hipp] at hl
        omega

/-- Every file of the input occurs in the batch `k = j / ipp` of the
page loop. -/
lemma mem_batch_of_mem (ipp : ℕ) (hipp : 0 < ipp) (files : List ImageFile)
    (f : ImageFile) (hf : f ∈ files) :
    ∃ k ∈ List.range (numBatches files.length ipp),
      f ∈ (files.drop (k * ipp)).take ipp := by
  have := chunks_join ipp hipp files
  rw [← this] at hf
  exact List.mem_flatMap.mp hf

lemma convertLoop_mem (step : ℕ → ImageFile → StepOut) (ipp : ℕ)
    (hipp : 0 < ipp) (files : List ImageFile) (f : ImageFile)
    (hf : f ∈ files) (e : Event) (he : ∀ i, e ∈ eventsOf (step i f)) :
    e ∈ (convertLoop step ipp files).2 := by
  obtain ⟨k, hk, hfk⟩ := mem_batch_of_mem ipp hipp files f hf
  have hmap : ∃ i, (i, f) ∈ ((files.drop (k * ipp)).take ipp).enum := by
    have h1 : f ∈ (((files.drop (k * ipp)).take ipp).enum).map Prod.snd := by
      rw [List.enum_map_snd]; exact hfk
    obtain ⟨p, hp, hpe⟩ := List.mem_map.mp h1
    exact ⟨p.1, by rw [← hpe]; exact hp⟩
  obtain ⟨i, hif⟩ := hmap
  unfold convertLoop
  exact foldl_evs_mem _ (batchFold_append step files.length ipp files)
    _ k hk e
    (batchFold_mem step files.length ipp files k i f hif e (he i)) _

/-! ### Counting `showPage` calls -/

lemma count_newPage_eventsOf (o : StepOut) :
    (eventsOf o).count Event.newPage = 0 := by
  cases o <;> simp [eventsOf]

lemma count_newPage_imgFold (step : ℕ → ImageFile → StepOut) (total : ℕ)
    (acc : ℕ × List Event) (p : ℕ × ImageFile) :
    countNewPage (imgFold step total acc p).2 = countNewPage acc.2 := by
  unfold countNewPage
  by_cases h : increments (step p.1 p.2) = true <;>
    simp [imgFold, h, List.count_append, count_newPage_eventsOf]

lemma count_newPage_imgLoop (step : ℕ → ImageFile → StepOut) (total : ℕ) :
    ∀ (l : List (ℕ × ImageFile)) (acc : ℕ × List Event),
      countNewPage (l.foldl (imgFold step total) acc).2 = countNewPage acc.2 := by
  intro l
  induction l with
  | nil => intro acc; rfl
  | cons p l ih =>
    intro acc
    rw [List.foldl_cons, ih, count_newPage_imgFold]

lemma count_newPage_batchFold (step : ℕ → ImageFile → StepOut)
    (total ipp : ℕ) (files : List ImageFile) (acc : ℕ × List Event) (k : ℕ) :
    countNewPage (batchFold step total ipp files acc k).2 =
      countNewPage acc.2 + (if 0 < k * ipp then 1 else 0) := by
  show countNewPage (((files.drop (k * ipp)).take ipp).enum.foldl
    (imgFold step total)
    (acc.1, acc.2 ++ [Event.statusPage (k + 1)] ++
      (if 0 < k * ipp then [Event.newPage] else []))).2 = _
  rw [count_newPage_imgLoop]
  unfold countNewPage
  rw [List.count_append, List.count_append]
  split <;> simp

lemma count_newPage_loop (step : ℕ → ImageFile → StepOut) (total ipp : ℕ)
    (files : List ImageFile) :
    ∀ (ks : List ℕ) (acc : ℕ × List Event),
      countNewPage (ks.foldl (batchFold step total ipp files) acc).2 =
        countNewPage acc.2 + ks.countP (fun k => decide (0 < k * ipp)) := by
  intro ks
  induction ks with
  | nil => intro acc; simp
  | cons k ks ih =>
    intro acc
    rw [List.foldl_cons, ih, count_newPage_batchFold, List.countP_cons]
    by_cases h : 0 < k * ipp <;> (simp [h]; try omega)

lemma countP_range_pos (ipp : ℕ) (hipp : 0 < ipp) :
    ∀ n : ℕ, (List.range n).countP (fun k => decide (0 < k * ipp)) = n - 1 := by
  intro n
  induction n with
  | zero => simp
  | succ n ih =>
    rw [List.range_succ, List.countP_append, ih]
    rcases Nat.eq_zero_or_pos n with rfl | hn
    · simp
    · have h : decide (0 < n * ipp) = true :=
        decide_eq_true (Nat.mul_pos hn hipp)
      rw [List.countP_cons, List.countP_nil, if_pos h]
      omega

lemma numBatches_pos (N ipp : ℕ) (hN : 0 < N) (hipp : 0 < ipp) :
    0 < numBatches N ipp := by
  unfold numBatches
  exact Nat.div_pos (by omega) hipp

lemma countNewPage_convertLoop (step : ℕ → ImageFile → StepOut) (ipp : ℕ)
    (files : List ImageFile) (hipp : 0 < ipp) :
    countNewPage (convertLoop step ipp files).2 =
      numBatches files.length ipp - 1 := by
  unfold convertLoop
  have h := count_newPage_loop step files.length ipp files
    (List.range (numBatches files.length ipp)) (0, [])
  unfold countNewPage at h ⊢
  rw [h, countP_range_pos ipp hipp]
  simp

/-- C2: on a non-empty input of `N` files both conversion variants
produce exactly `ceil(N / ipp)` physical pages: the document starts
with an implicit first page, and `showPage` is emitted exactly
`ceil(N / ipp) - 1` times — once before every batch after the first.
`numBatches N ipp = (N + ipp - 1) / ipp` is the ceiling of `N / ipp`,
as the last two conjuncts state. -/
theorem page_count (pw ph : ℚ) (ipp : ℕ) (hq : Bool)
    (files : List ImageFile) (hne : files ≠ []) (hipp : 0 < ipp) :
    pagesCreated (runV2 pw ph ipp files) = numBatches files.length ipp ∧
    pagesCreated (runSvg pw ph ipp hq files) = numBatches files.length ipp ∧
    countNewPage (runV2 pw ph ipp files).events =
      numBatches files.length ipp - 1 ∧
    countNewPage (runSvg pw ph ipp hq files).events =
      numBatches files.length ipp - 1 ∧
    numBatches files.length ipp = (files.length + ipp - 1) / ipp ∧
    files.length ≤ ipp * numBatches files.length ipp ∧
    ipp * numBatches files.length ipp < files.length + ipp := by
  have hN : 0 < files.length := List.length_pos.mpr hne
  have hnb : 0 < numBatches files.length ipp := numBatches_pos _ _ hN hipp
  have hcv2 : countNewPage (runV2 pw ph ipp files).events =
      numBatches files.length ipp - 1 := by
    unfold runV2
    rw [if_neg (by simp [hne])]
    show countNewPage (convert_images_to_pdf pw ph ipp files) = _
    unfold convert_images_to_pdf countNewPage
    rw [List.count_append]
    have hwarn : ((if ipp ≠ 9 then [Event.statusWarn] else []) :
        List Event).count Event.newPage = 0 := by
      split <;> simp
    rw [hwarn, Nat.zero_add]
    exact countNewPage_convertLoop (stepV2 pw ph) ipp files hipp
  have hcsvg : countNewPage (runSvg pw ph ipp hq files).events =
      numBatches files.length ipp - 1 := by
    unfold runSvg
    rw [if_neg (by simp [hne])]
    show countNewPage (convert_svgs_to_pdf pw ph ipp hq files) = _
    unfold convert_svgs_to_pdf
    exact countNewPage_convertLoop (stepSvg pw ph hq) ipp files hipp
  have hceil : files.length ≤ ipp * numBatches files.length ipp ∧
      ipp * numBatches files.length ipp < files.length + ipp := by
    unfold numBatches
    have h1 := Nat.div_add_mod (files.length + ipp - 1) ipp
    have h2 := Nat.mod_lt (files.length + ipp - 1) hipp
    set m := ipp * ((files.length + ipp - 1) / ipp) with hm
    set r := (files.length + ipp - 1) % ipp with hr
    omega
  refine ⟨?_, ?_, hcv2, hcsvg, rfl, hceil.1, hceil.2⟩
  · unfold pagesCreated
    rw [if_pos (by unfold runV2; rw [if_neg (by simp [hne])])]
    rw [hcv2]
    omega
  · unfold pagesCreated
    rw [if_pos (by unfold runSvg; rw [if_neg (by simp [hne])])]
    rw [hcsvg]
    omega

/-- Witness for C2: two files, nine images per page, one batch in each
variant. -/
theorem page_count_w :
    pagesCreated (runV2 300 300 9
      [⟨"a.png", ".png", LoadOut.ok 1 1⟩, ⟨"b.png", ".png", LoadOut.ok 1 1⟩]) =
      numBatches 2 9 ∧
    pagesCreated (runSvg 300 300 9 true
      [⟨"a.png", ".png", LoadOut.ok 1 1⟩, ⟨"b.png", ".png", LoadOut.ok 1 1⟩]) =
      numBatches 2 9 :=
  ⟨(page_count 300 300 9 true
      [⟨"a.png", ".png", LoadOut.ok 1 1⟩, ⟨"b.png", ".png", LoadOut.ok 1 1⟩]
      (by decide) (by decide)).1,
   (page_count 300 300 9 true
      [⟨"a.png", ".png", LoadOut.ok 1 1⟩, ⟨"b.png", ".png", LoadOut.ok 1 1⟩]
      (by decide) (by decide)).2.1⟩

/-! ### Progress-channel lemmas -/

lemma imgFold_eq_pos (step : ℕ → ImageFile → StepOut) (total : ℕ)
    (acc : ℕ × List Event) (p : ℕ × ImageFile)
    (hinc : increments (step p.1 p.2) = true) :
    imgFold step total acc p =
      (acc.1 + 1, acc.2 ++ eventsOf (step p.1 p.2) ++
        [Event.progress ((acc.1 + 1) * 100 / total)]) := by
  simp [imgFold, hinc]

lemma imgFold_eq_neg (step : ℕ → ImageFile → StepOut) (total : ℕ)
    (acc : ℕ × List Event) (p : ℕ × ImageFile)
    (hinc : ¬ increments (step p.1 p.2) = true) :
    imgFold step total acc p = (acc.1, acc.2 ++ eventsOf (step p.1 p.2)) := by
  simp [imgFold, hinc]

lemma progressValues_append (l1 l2 : List Event) :
    progressValues (l1 ++ l2) = progressValues l1 ++ progressValues l2 :=
  List.filterMap_append l1 l2 _

lemma progressValues_eventsOf (o : StepOut) :
    progressValues (eventsOf o) = [] := by
  cases o <;> simp [eventsOf, progressValues]

lemma progressValues_header (k : ℕ) (b : Bool) :
    progressValues ([Event.statusPage (k + 1)] ++
      (if b = true then [Event.newPage] else [])) = [] := by
  cases b <;> simp [progressValues]

lemma progInv_imgFold (step : ℕ → ImageFile → StepOut) (total : ℕ)
    (acc : ℕ × List Event) (p : ℕ × ImageFile)
    (hs : (progressValues acc.2).Pairwise (· ≤ ·))
    (hb : ∀ v ∈ progressValues acc.2, v ≤ acc.1 * 100 / total) :
    (progressValues (imgFold step total acc p).2).Pairwise (· ≤ ·) ∧
    ∀ v ∈ progressValues (imgFold step total acc p).2,
      v ≤ (imgFold step total acc p).1 * 100 / total := by
  by_cases hinc : increments (step p.1 p.2) = true
  · rw [imgFold_eq_pos step total acc p hinc]
    have hmono : acc.1 * 100 / total ≤ (acc.1 + 1) * 100 / total :=
      Nat.div_le_div_right (Nat.mul_le_mul_right _ (Nat.le_succ _))
    have hpv : progressValues (acc.2 ++ eventsOf (step p.1 p.2) ++
        [Event.progress ((acc.1 + 1) * 100 / total)]) =
        progressValues acc.2 ++ [(acc.1 + 1) * 100 / total] := by
      rw [progressValues_append, progressValues_append,
        progressValues_eventsOf, List.append_nil]
      rfl
    constructor
    · show (progressValues _).Pairwise (· ≤ ·)
      rw [hpv, List.pairwise_append]
      refine ⟨hs, List.pairwise_singleton _ _, fun a ha b hbm => ?_⟩
      rw [List.mem_singleton] at hbm
      subst hbm
      exact le_trans (hb a ha) hmono
    · intro v hv
      rw [hpv, List.mem_append] at hv
      rcases hv with hv | hv
      · exact le_trans (hb v hv) hmono
      · rw [List.mem_singleton] at hv
        subst hv
        exact le_refl _
  · rw [imgFold_eq_neg step total acc p hinc]
    have hpv : progressValues (acc.2 ++ eventsOf (step p.1 p.2)) =
        progressValues acc.2 := by
      rw [progressValues_append, progressValues_eventsOf, List.append_nil]
    exact ⟨by rw [hpv]; exact hs, fun v hv => hb v (by rwa [hpv] at hv)⟩

lemma progInv_imgLoop (step : ℕ → ImageFile → StepOut) (total : ℕ) :
    ∀ (l : List (ℕ × ImageFile)) (acc : ℕ × List Event),
      (progressValues acc.2).Pairwise (· ≤ ·) →
      (∀ v ∈ progressValues acc.2, v ≤ acc.1 * 100 / total) →
      (progressValues (l.foldl (imgFold step total) acc).2).Pairwise (· ≤ ·) ∧
      ∀ v ∈ progressValues (l.foldl (imgFold step total) acc).2,
        v ≤ (l.foldl (imgFold step total) acc).1 * 100 / total := by
  intro l
  induction l with
  | nil => exact fun acc hs hb => ⟨hs, hb⟩
  | cons p l ih =>
    intro acc hs hb
    rw [List.foldl_cons]
    obtain ⟨hs', hb'⟩ := progInv_imgFold step total acc p hs hb
    exact ih (imgFold step total acc p) hs' hb'

lemma progInv_batchFold (step : ℕ → ImageFile → StepOut) (total ipp : ℕ)
    (files : List ImageFile) (acc : ℕ × List Event) (k : ℕ)
    (hs : (progressValues acc.2).Pairwise (· ≤ ·))
    (hb : ∀ v ∈ progressValues acc.2, v ≤ acc.1 * 100 / total) :
    (progressValues (batchFold step total ipp files acc k).2).Pairwise (· ≤ ·) ∧
    ∀ v ∈ progressValues (batchFold step total ipp files acc k).2,
      v ≤ (batchFold step total ipp files acc k).1 * 100 / total := by
  have hhd : progressValues (acc.2 ++ [Event.statusPage (k + 1)] ++
      (if 0 < k * ipp then [Event.newPage] else [])) = progressValues acc.2 := by
    rw [List.append_assoc, progressValues_append]
    have : progressValues ([Event.statusPage (k + 1)] ++
        (if 0 < k * ipp then [Event.newPage] else [])) = [] := by
      split <;> simp [progressValues]
    rw [this, List.append_nil]
  exact progInv_imgLoop step total _ _ (by rw [hhd]; exact hs)
    (fun v hv => hb v (by rwa [hhd] at hv))

lemma progInv_loop (step : ℕ → ImageFile → StepOut) (total ipp : ℕ)
    (files : List ImageFile) :
    ∀ (ks : List ℕ) (acc : ℕ × List Event),
      (progressValues acc.2).Pairwise (· ≤ ·) →
      (∀ v ∈ progressValues acc.2, v ≤ acc.1 * 100 / total) →
      (progressValues (ks.foldl (batchFold step total ipp files) acc).2).Pairwise
        (· ≤ ·) ∧
      ∀ v ∈ progressValues (ks.foldl (batchFold step total ipp files) acc).2,
        v ≤ (ks.foldl (batchFold step total ipp files) acc).1 * 100 / total := by
  intro ks
  induction ks with
  | nil => exact fun acc hs hb => ⟨hs, hb⟩
  | cons k ks ih =>
    intro acc hs hb
    rw [List.foldl_cons]
    obtain ⟨hs', hb'⟩ := progInv_batchFold step total ipp files acc k hs hb
    exact ih _ hs' hb'

lemma convertLoop_sorted (step : ℕ → ImageFile → StepOut) (ipp : ℕ)
    (files : List ImageFile) :
    (progressValues (convertLoop step ipp files).2).Pairwise (· ≤ ·) := by
  unfold convertLoop
  exact (progInv_loop step files.length ipp files _ (0, [])
    (by simp [progressValues]) (by simp [progressValues])).1

/-! ### Step-shape helper lemmas -/

/-- A raster file with nonzero intrinsic dimensions that loads cleanly is
drawn by the no-margin variant with the fit scale and centered origin. -/
lemma stepV2_raster_ok (pw ph : ℚ) (i : ℕ) (name ext : String) (w h : ℚ)
    (hext : ext ∈ rasterExts) (hw : w ≠ 0) (hh : h ≠ 0) :
    stepV2 pw ph i ⟨name, ext, LoadOut.ok w h⟩ =
      StepOut.drawn name (scaleFit (pw / 3) (ph / 3) w h)
        (centerInCell (cellX (pw / 3) (colOf i)) (pw / 3)
          (w * scaleFit (pw / 3) (ph / 3) w h))
        (centerInCell (cellY ph (ph / 3) (rowOf i)) (ph / 3)
          (h * scaleFit (pw / 3) (ph / 3) w h))
        true := by
  have hsvg : ext ≠ ".svg" := by
    rintro rfl
    revert hext
    decide
  show (if ext = ".svg" then _ else if ext ∈ rasterExts then _ else _) = _
  rw [if_neg hsvg, if_pos hext]
  show (if w = 0 ∨ h = 0 then _ else _) = _
  rw [if_neg (not_or.mpr ⟨hw, hh⟩)]

/-- A file whose load (or draw) raises is reported as an error by the
no-margin variant whenever its extension reaches a loader at all. -/
lemma stepV2_raise (pw ph : ℚ) (i : ℕ) (name ext : String)
    (hok : ext = ".svg" ∨ ext ∈ rasterExts) :
    stepV2 pw ph i ⟨name, ext, LoadOut.raise⟩ = StepOut.err name := by
  by_cases hsvg : ext = ".svg"
  · show (if ext = ".svg" then _ else _) = _
    rw [if_pos hsvg]
  · rcases hok with h | hmem
    · exact absurd h hsvg
    · show (if ext = ".svg" then _ else if ext ∈ rasterExts then _ else _) = _
      rw [if_neg hsvg, if_pos hmem]

/-- A file with an unsupported extension is skipped by the no-margin
variant without consulting the loader. -/
lemma stepV2_skip (pw ph : ℚ) (i : ℕ) (f : ImageFile)
    (hsvg : f.ext ≠ ".svg") (hras : f.ext ∉ rasterExts) :
    stepV2 pw ph i f = StepOut.skip f.name := by
  show (if f.ext = ".svg" then _ else if f.ext ∈ rasterExts then _ else _) = _
  rw [if_neg hsvg, if_neg hras]

/-- In the SVG-only variant any file whose load raises is reported as an
error. -/
lemma stepSvg_raise (pw ph : ℚ) (hq : Bool) (i : ℕ) (name ext : String) :
    stepSvg pw ph hq i ⟨name, ext, LoadOut.raise⟩ = StepOut.err name := rfl

/-- In the SVG-only variant a `None` drawing is silently counted. -/
lemma stepSvg_noDrawing (pw ph : ℚ) (hq : Bool) (i : ℕ) (name ext : String) :
    stepSvg pw ph hq i ⟨name, ext, LoadOut.noDrawing⟩ = StepOut.silent := rfl

/-! ### Final progress value under an all-successful run -/

lemma imgLoop_counted (step : ℕ → ImageFile → StepOut) (total : ℕ) :
    ∀ (l : List (ℕ × ImageFile)) (acc : ℕ × List Event),
      (∀ p ∈ l, increments (step p.1 p.2) = true) →
      (l.foldl (imgFold step total) acc).1 = acc.1 + l.length ∧
      (progressValues (l.foldl (imgFold step total) acc).2).getLast? =
        (if l.isEmpty then (progressValues acc.2).getLast?
         else some ((acc.1 + l.length) * 100 / total)) := by
  intro l
  induction l with
  | nil => exact fun acc _ => ⟨by simp, by simp⟩
  | cons p l ih =>
    intro acc hall
    have hp : increments (step p.1 p.2) = true := hall p (List.mem_cons_self p l)
    have hall' : ∀ q ∈ l, increments (step q.1 q.2) = true :=
      fun q hq => hall q (List.mem_cons_of_mem p hq)
    rw [List.foldl_cons, imgFold_eq_pos step total acc p hp]
    obtain ⟨ih1, ih2⟩ := ih _ hall'
    have hpv : progressValues (acc.2 ++ eventsOf (step p.1 p.2) ++
        [Event.progress ((acc.1 + 1) * 100 / total)]) =
        progressValues acc.2 ++ [(acc.1 + 1) * 100 / total] := by
      rw [progressValues_append, progressValues_append,
        progressValues_eventsOf, List.append_nil]
      rfl
    constructor
    · rw [ih1]
      show acc.1 + 1 + l.length = acc.1 + (l.length + 1)
      omega
    · rw [ih2]
      cases l with
      | nil =>
        show (progressValues (acc.2 ++ eventsOf (step p.1 p.2) ++
          [Event.progress ((acc.1 + 1) * 100 / total)])).getLast? =
          some ((acc.1 + 1) * 100 / total)
        rw [hpv, List.getLast?_concat]
      | cons q l' =>
        show some ((acc.1 + 1 + (l'.length + 1)) * 100 / total) =
          some ((acc.1 + (l'.length + 1 + 1)) * 100 / total)
        have harith : acc.1 + 1 + (l'.length + 1) = acc.1 + (l'.length + 1 + 1) := by
          omega
        rw [harith]

lemma mem_of_mem_enum {α : Type} {p : ℕ × α} {l : List α}
    (hp : p ∈ l.enum) : p.2 ∈ l := by
  have := List.mem_map_of_mem Prod.snd hp
  rwa [List.enum_map_snd] at this

lemma batchFold_counted (step : ℕ → ImageFile → StepOut) (total ipp : ℕ)
    (files : List ImageFile) (k : ℕ) (acc : ℕ × List Event)
    (hall : ∀ f ∈ (files.drop (k * ipp)).take ipp,
      ∀ i, increments (step i f) = true)
    (hne : (files.drop (k * ipp)).take ipp ≠ []) :
    (batchFold step total ipp files acc k).1 =
      acc.1 + ((files.drop (k * ipp)).take ipp).length ∧
    (progressValues (batchFold step total ipp files acc k).2).getLast? =
      some ((acc.1 + ((files.drop (k * ipp)).take ipp).length) * 100 / total) := by
  have hall' : ∀ p ∈ ((files.drop (k * ipp)).take ipp).enum,
      increments (step p.1 p.2) = true :=
    fun p hp => hall p.2 (mem_of_mem_enum hp) p.1
  obtain ⟨h1, h2⟩ := imgLoop_counted step total
    ((files.drop (k * ipp)).take ipp).enum
    (acc.1, acc.2 ++ [Event.statusPage (k + 1)] ++
      (if 0 < k * ipp then [Event.newPage] else [])) hall'
  have hlen : (((files.drop (k * ipp)).take ipp).enum).length =
      ((files.drop (k * ipp)).take ipp).length := List.enum_length
  have hemp : (((files.drop (k * ipp)).take ipp).enum).isEmpty = false := by
    rw [List.isEmpty_eq_false_iff_exists_mem]
    obtain ⟨f, hf⟩ := List.exists_mem_of_ne_nil _ hne
    have : f ∈ (((files.drop (k * ipp)).take ipp).enum).map Prod.snd := by
      rw [List.enum_map_snd]; exact hf
    obtain ⟨p, hp, _⟩ := List.mem_map.mp this
    exact ⟨p, hp⟩
  constructor
  · show (((files.drop (k * ipp)).take ipp).enum.foldl (imgFold step total)
      (acc.1, acc.2 ++ [Event.statusPage (k + 1)] ++
        (if 0 < k * ipp then [Event.newPage] else []))).1 = _
    rw [h1, hlen]
  · show (progressValues (((files.drop (k * ipp)).take ipp).enum.foldl
      (imgFold step total)
      (acc.1, acc.2 ++ [Event.statusPage (k + 1)] ++
        (if 0 < k * ipp then [Event.newPage] else []))).2).getLast? = _
    rw [h2, hemp]
    simp only [Bool.false_eq_true, if_false, hlen]

/-- Every batch index below `numBatches` starts strictly inside the
file list. -/
lemma batch_start_lt (N ipp n : ℕ) (hipp : 0 < ipp)
    (hn : n < numBatches N ipp) : n * ipp < N := by
  unfold numBatches at hn
  have h1 : (n + 1) * ipp ≤ N + ipp - 1 :=
    (Nat.le_div_iff_mul_le hipp).mp (by omega)
  have h2 : N ≠ 0 := by
    rintro rfl
    have h3 : (0 + ipp - 1) / ipp = 0 :=
      (Nat.div_eq_zero_iff hipp).mpr (by omega)
    omega
  rw [Nat.add_mul, Nat.one_mul] at h1
  obtain ⟨m, hm⟩ : ∃ m, m = n * ipp := ⟨_, rfl⟩
  rw [← hm] at h1 ⊢
  omega

lemma loop_counted (step : ℕ → ImageFile → StepOut) (ipp : ℕ)
    (files : List ImageFile) (hipp : 0 < ipp)
    (hall : ∀ f ∈ files, ∀ i, increments (step i f) = true) :
    ∀ n, n ≤ numBatches files.length ipp →
      ((List.range n).foldl (batchFold step files.length ipp files) (0, [])).1 =
        min (n * ipp) files.length ∧
      (0 < n →
        (progressValues ((List.range n).foldl
          (batchFold step files.length ipp files) (0, [])).2).getLast? =
          some ((min (n * ipp) files.length) * 100 / files.length)) := by
  intro n
  induction n with
  | zero => exact fun _ => ⟨by simp, by omega⟩
  | succ n ih =>
    intro hn
    obtain ⟨ih1, _⟩ := ih (by omega)
    have hlt : n * ipp < files.length := batch_start_lt _ _ _ hipp (by omega)
    have hbne : (files.drop (n * ipp)).take ipp ≠ [] := by
      intro h0
      have h1 : ((files.drop (n * ipp)).take ipp).length = 0 := by
        rw [h0]; rfl
      rw [List.length_take, List.length_drop] at h1
      omega
    have hball : ∀ f ∈ (files.drop (n * ipp)).take ipp,
        ∀ i, increments (step i f) = true :=
      fun f hf => hall f (List.mem_of_mem_drop (List.mem_of_mem_take hf))
    rw [List.range_succ, List.foldl_append, List.foldl_cons, List.foldl_nil]
    obtain ⟨hb1, hb2⟩ := batchFold_counted step files.length ipp files n
      ((List.range n).foldl (batchFold step files.length ipp files) (0, []))
      hball hbne
    have hblen : ((files.drop (n * ipp)).take ipp).length =
        min ipp (files.length - n * ipp) := by
      rw [List.length_take, List.length_drop]
    have hsum : min (n * ipp) files.length +
        min ipp (files.length - n * ipp) = min ((n + 1) * ipp) files.length := by
      rw [Nat.add_mul, Nat.one_mul]
      obtain ⟨m, hm⟩ : ∃ m, m = n * ipp := ⟨_, rfl⟩
      rw [← hm]
      omega
    constructor
    · rw [hb1, ih1, hblen, hsum]
    · intro _
      rw [hb2, ih1, hblen, hsum]

lemma numBatches_mul_ge (N ipp : ℕ) (hipp : 0 < ipp) (hN : 0 < N) :
    N ≤ numBatches N ipp * ipp := by
  unfold numBatches
  have h1 := Nat.div_add_mod (N + ipp - 1) ipp
  have h2 := Nat.mod_lt (N + ipp - 1) hipp
  rw [Nat.mul_comm]
  obtain ⟨m, hm⟩ : ∃ m, m = ipp * ((N + ipp - 1) / ipp) := ⟨_, rfl⟩
  obtain ⟨r, hr⟩ : ∃ r, r = (N + ipp - 1) % ipp := ⟨_, rfl⟩
  rw [← hm, ← hr] at h1
  rw [← hm]
  omega

lemma convertLoop_last (step : ℕ → ImageFile → StepOut) (ipp : ℕ)
    (files : List ImageFile) (hipp : 0 < ipp) (hne : files ≠ [])
    (hall : ∀ f ∈ files, ∀ i, increments (step i f) = true) :
    (progressValues (convertLoop step ipp files).2).getLast? = some 100 := by
  have hN : 0 < files.length := List.length_pos.mpr hne
  have hnb : 0 < numBatches files.length ipp := numBatches_pos _ _ hN hipp
  obtain ⟨_, h2⟩ := loop_counted step ipp files hipp hall
    (numBatches files.length ipp) (le_refl _)
  have hmin : min (numBatches files.length ipp * ipp) files.length =
      files.length :=
    Nat.min_eq_right (numBatches_mul_ge _ _ hipp hN)
  have h3 := h2 hnb
  rw [hmin] at h3
  unfold convertLoop
  rw [h3, Nat.mul_comm, Nat.mul_div_cancel _ hN]

/-- C3 amended: for every run on a non-empty input the sequence of values
emitted on the progress channel is non-decreasing (both variants), and
if every file completes its per-image step — reaching
`files_processed += 1` — the last emitted progress value is exactly
`100`.  (As stated the claim is false: a file skipped for unsupported
format or failing to load hits `continue` before `files_processed += 1`,
so it does not count as processed and the final value stays below 100 —
see the counterexample.) -/
theorem progress_trace (pw ph : ℚ) (ipp : ℕ) (hq : Bool)
    (files : List ImageFile) (hne : files ≠ []) (hipp : 0 < ipp) :
    ((progressValues (runV2 pw ph ipp files).events).Pairwise (· ≤ ·) ∧
     (progressValues (runSvg pw ph ipp hq files).events).Pairwise (· ≤ ·)) ∧
    ((∀ f ∈ files, ∀ i, increments (stepV2 pw ph i f) = true) →
      (progressValues (runV2 pw ph ipp files).events).getLast? = some 100) ∧
    ((∀ f ∈ files, ∀ i, increments (stepSvg pw ph hq i f) = true) →
      (progressValues (runSvg pw ph ipp hq files).events).getLast? =
        some 100) := by
  have hv2 : (runV2 pw ph ipp files).events =
      (if ipp ≠ 9 then [Event.statusWarn] else []) ++
        (convertLoop (stepV2 pw ph) ipp files).2 := by
    unfold runV2
    rw [if_neg (by simp [hne])]
    rfl
  have hsvg : (runSvg pw ph ipp hq files).events =
      (convertLoop (stepSvg pw ph hq) ipp files).2 := by
    unfold runSvg
    rw [if_neg (by simp [hne])]
    rfl
  have hwarn : progressValues
      ((if ipp ≠ 9 then [Event.statusWarn] else []) : List Event) = [] := by
    split <;> simp [progressValues]
  have hv2pv : progressValues (runV2 pw ph ipp files).events =
      progressValues (convertLoop (stepV2 pw ph) ipp files).2 := by
    rw [hv2, progressValues_append, hwarn, List.nil_append]
  refine ⟨⟨?_, ?_⟩, ?_, ?_⟩
  · rw [hv2pv]
    exact convertLoop_sorted _ _ _
  · rw [hsvg]
    exact convertLoop_sorted _ _ _
  · intro hall
    rw [hv2pv]
    exact convertLoop_last _ _ _ hipp hne hall
  · intro hall
    rw [hsvg]
    exact convertLoop_last _ _ _ hipp hne hall

/-- Witness for C3 on one cleanly-loading raster file. -/
theorem progress_trace_w :
    (progressValues (runV2 300 300 9
      [⟨"b.png", ".png", LoadOut.ok 1 1⟩]).events).getLast? = some 100 :=
  (progress_trace 300 300 9 true [⟨"b.png", ".png", LoadOut.ok 1 1⟩]
    (by decide) (by decide)).2.1
    (by
      intro f hf i
      rw [List.mem_singleton] at hf
      subst hf
      rw [stepV2_raster_ok 300 300 i "b.png" ".png" 1 1 (by decide)
        one_ne_zero one_ne_zero]
      rfl)

/-- C3 counterexample: a run with one file skipped for unsupported
format completes with success, but the skipped file is not counted as
processed — `continue` jumps over `files_processed += 1` — so the only
progress value emitted is `50`, and the sequence never reaches `100`. -/
theorem progress_cex :
    (runV2 300 300 9 [⟨"a.txt", ".txt", LoadOut.ok 1 1⟩,
      ⟨"b.png", ".png", LoadOut.ok 1 1⟩]).success = true ∧
    progressValues (runV2 300 300 9 [⟨"a.txt", ".txt", LoadOut.ok 1 1⟩,
      ⟨"b.png", ".png", LoadOut.ok 1 1⟩]).events = [50] ∧
    (progressValues (runV2 300 300 9 [⟨"a.txt", ".txt", LoadOut.ok 1 1⟩,
      ⟨"b.png", ".png", LoadOut.ok 1 1⟩]).events).getLast? = some 50 ∧
    (50 : ℕ) ≠ 100 := by
  have hf1 : stepV2 300 300 0 ⟨"a.txt", ".txt", LoadOut.ok 1 1⟩ =
      StepOut.skip "a.txt" := stepV2_skip _ _ _ _ (by decide) (by decide)
  have hf2 := stepV2_raster_ok 300 300 1 "b.png" ".png" 1 1 (by decide)
    one_ne_zero one_ne_zero
  have hpv : progressValues (runV2 300 300 9
      [⟨"a.txt", ".txt", LoadOut.ok 1 1⟩,
       ⟨"b.png", ".png", LoadOut.ok 1 1⟩]).events = [50] := by
    simp [runV2, convert_images_to_pdf, convertLoop, numBatches, batchFold,
      imgFold, hf1, hf2, eventsOf, increments, progressValues,
      List.range_succ, List.range_zero, List.enum_cons, List.enumFrom_cons,
      List.enumFrom_nil, List.take_succ_cons, List.take_nil]
  exact ⟨rfl, hpv, by rw [hpv]; rfl, by decide⟩

/-- C7: on an empty input list both variants terminate with a failure
result before any page is created: the `ValueError` raised ahead of the
canvas construction is reported through `finished_signal.emit(False, …)`,
no page is drawn, zero pages are created, and no progress or status
event is emitted. -/
theorem empty_input (pw ph : ℚ) (ipp : ℕ) (hq : Bool) :
    runV2 pw ph ipp [] =
      ⟨false, "Fehler bei der Konvertierung: Keine Bilddateien ausgewählt",
        []⟩ ∧
    runSvg pw ph ipp hq [] =
      ⟨false, "Fehler bei der Konvertierung: Keine SVG-Dateien ausgewählt",
        []⟩ ∧
    pagesCreated (runV2 pw ph ipp []) = 0 ∧
    pagesCreated (runSvg pw ph ipp hq []) = 0 :=
  ⟨rfl, rfl, rfl, rfl⟩

/-- C9: in the SVG-only variant a file for which `svg2rlg` returns
`None` produces no status event of any kind and draws nothing, yet it
is still counted as processed and a progress event is emitted for it:
the step is `silent`, it emits no events, it increments
`files_processed`, and a run on exactly that file ends with the page
status and the `100` progress event only — no event names the file. -/
theorem svg_none_silent (pw ph : ℚ) (ipp : ℕ) (hq : Bool)
    (name ext : String) (i : ℕ) (hipp : 0 < ipp) :
    stepSvg pw ph hq i ⟨name, ext, LoadOut.noDrawing⟩ = StepOut.silent ∧
    eventsOf StepOut.silent = [] ∧
    increments StepOut.silent = true ∧
    runSvg pw ph ipp hq [⟨name, ext, LoadOut.noDrawing⟩] =
      ⟨true, "Konvertierung erfolgreich abgeschlossen!",
        [Event.statusPage 1, Event.progress 100]⟩ := by
  refine ⟨rfl, rfl, rfl, ?_⟩
  obtain ⟨m, rfl⟩ : ∃ m, ipp = m + 1 := ⟨ipp - 1, by omega⟩
  have hnb : numBatches 1 (m + 1) = 1 := by
    unfold numBatches
    have h1 : 1 + (m + 1) - 1 = m + 1 := by omega
    rw [h1, Nat.div_self (Nat.succ_pos m)]
  have hstep : ∀ j, stepSvg pw ph hq j ⟨name, ext, LoadOut.noDrawing⟩ =
      StepOut.silent := fun _ => rfl
  simp [runSvg, convert_svgs_to_pdf, convertLoop, hnb, List.range_succ,
    List.range_zero, batchFold, List.take_succ_cons, List.take_nil,
    List.enum_cons, List.enumFrom_nil, imgFold, hstep, increments, eventsOf]

/-- Witness for C9 at a concrete page size and file. -/
theorem svg_none_silent_w :
    runSvg 79 79 9 true [⟨"a.svg", ".svg", LoadOut.noDrawing⟩] =
      ⟨true, "Konvertierung erfolgreich abgeschlossen!",
        [Event.statusPage 1, Event.progress 100]⟩ :=
  (svg_none_silent 79 79 9 true "a.svg" ".svg" 0 (by decide)).2.2.2

/-- C8: a per-image exception is caught at the image-processing
boundary: the run still finishes with `success = true` (both variants,
for every non-empty input), a status event naming the failing file is
emitted (in the no-margin variant for every file whose extension
reaches a loader; in the SVG-only variant for every file), and
processing continues — every other cleanly-loading raster file is
still drawn and reported. -/
theorem per_image_failure (pw ph : ℚ) (ipp : ℕ) (hq : Bool)
    (files : List ImageFile) (hne : files ≠ []) (hipp : 0 < ipp) :
    (runV2 pw ph ipp files).success = true ∧
    (runSvg pw ph ipp hq files).success = true ∧
    (∀ f ∈ files, f.load = LoadOut.raise →
      (f.ext = ".svg" ∨ f.ext ∈ rasterExts) →
      Event.statusErr f.name ∈ (runV2 pw ph ipp files).events) ∧
    (∀ f ∈ files, f.load = LoadOut.raise →
      Event.statusErr f.name ∈ (runSvg pw ph ipp hq files).events) ∧
    (∀ f ∈ files, ∀ w h : ℚ, f.load = LoadOut.ok w h →
      f.ext ∈ rasterExts → w ≠ 0 → h ≠ 0 →
      Event.statusOk f.name (scaleFit (pw / 3) (ph / 3) w h) true ∈
        (runV2 pw ph ipp files).events) := by
  have hv2 : (runV2 pw ph ipp files).events =
      (if ipp ≠ 9 then [Event.statusWarn] else []) ++
        (convertLoop (stepV2 pw ph) ipp files).2 := by
    unfold runV2
    rw [if_neg (by simp [hne])]
    rfl
  have hsvg : (runSvg pw ph ipp hq files).events =
      (convertLoop (stepSvg pw ph hq) ipp files).2 := by
    unfold runSvg
    rw [if_neg (by simp [hne])]
    rfl
  refine ⟨?_, ?_, ?_, ?_, ?_⟩
  · unfold runV2
    rw [if_neg (by simp [hne])]
  · unfold runSvg
    rw [if_neg (by simp [hne])]
  · intro f hf hraise hok
    rw [hv2]
    refine List.mem_append_right _ ?_
    refine convertLoop_mem (stepV2 pw ph) ipp hipp files f hf _ ?_
    intro i
    have hfeq : (⟨f.name, f.ext, LoadOut.raise⟩ : ImageFile) = f := by
      rw [← hraise]
    rw [← hfeq, stepV2_raise pw ph i f.name f.ext hok]
    simp [eventsOf]
  · intro f hf hraise
    rw [hsvg]
    refine convertLoop_mem (stepSvg pw ph hq) ipp hipp files f hf _ ?_
    intro i
    have hfeq : (⟨f.name, f.ext, LoadOut.raise⟩ : ImageFile) = f := by
      rw [← hraise]
    rw [← hfeq, stepSvg_raise pw ph hq i f.name f.ext]
    simp [eventsOf]
  · intro f hf w h hld hext hw hh
    rw [hv2]
    refine List.mem_append_right _ ?_
    refine convertLoop_mem (stepV2 pw ph) ipp hipp files f hf _ ?_
    intro i
    have hfeq : (⟨f.name, f.ext, LoadOut.ok w h⟩ : ImageFile) = f := by
      rw [← hld]
    rw [← hfeq, stepV2_raster_ok pw ph i f.name f.ext w h hext hw hh]
    simp [eventsOf]

/-- Witness for C8: one raising file among the input still gets its
error status event reported. -/
theorem per_image_failure_w :
    Event.statusErr "bad.png" ∈ (runV2 300 300 9
      [⟨"bad.png", ".png", LoadOut.raise⟩,
       ⟨"good.png", ".png", LoadOut.ok 1 1⟩]).events :=
  (per_image_failure 300 300 9 true
    [⟨"bad.png", ".png", LoadOut.raise⟩,
     ⟨"good.png", ".png", LoadOut.ok 1 1⟩]
    (by decide) (by decide)).2.2.1
    ⟨"bad.png", ".png", LoadOut.raise⟩ (by decide) rfl (Or.inr (by decide))
